import Mathlib

/-!
Verification of the lota task-orchestration daemon (TypeScript sources)
against its natural-language specification.

The development shallowly embeds the relevant source functions:
the GitHub-backed task store (`github.ts`: `swapLabels`, `updateStatus`,
`completeTask`, `savePlan`, `getTask`, the metadata codec and the route
dispatcher), the retrying HTTP wrapper `gh`, the recovery scheduler
(`recoverOrFailTask`), the git worktree merge-back (`worktree.ts`,
`process.ts`), the executor (`runner.ts` `executeTask`) and the message
polling loop.  The issue tracker is modelled as an explicit store of
issues; git and subprocess outcomes are modelled as explicit oracles of
outcomes; text is modelled as `String` / `List Char`.
-/

namespace Lota

/-- Mirror of JavaScript `s.startsWith(p)` (and of Lean `String.startsWith`):
`p` is a prefix of `s`, decided on the underlying character lists. -/
def startsWithS (s p : String) : Bool :=
  p.data.isPrefixOf s.data

/-! ## Tracker store model

A GitHub issue as the lota task store uses it: number, title, label set,
body, comment bodies (in API order, oldest first) and open/closed state. -/

structure Issue where
  number : Nat
  title : String
  labels : List String
  body : String
  comments : List String
  state : String
deriving Repr, DecidableEq

structure Store where
  issues : List Issue
deriving Repr, DecidableEq

/-- `GET /repos/:repo/issues/:n` — look an issue up by number. -/
def getIssue (st : Store) (n : Nat) : Option Issue :=
  st.issues.find? (fun i => i.number == n)

/-- Update the issue with number `n` by `f` (helper for the PUT/POST/PATCH
tracker mutations; issue numbers are unique keys on the tracker). -/
def setIssue (st : Store) (n : Nat) (f : Issue → Issue) : Store :=
  ⟨st.issues.map (fun i => if i.number == n then f i else i)⟩

/-- `PUT /repos/:repo/issues/:n/labels` — replace the full label set. -/
def putLabels (st : Store) (n : Nat) (ls : List String) : Store :=
  setIssue st n (fun i => { i with labels := ls })

/-- `POST /repos/:repo/issues/:n/comments` — append a comment. -/
def postComment (st : Store) (n : Nat) (c : String) : Store :=
  setIssue st n (fun i => { i with comments := i.comments ++ [c] })

/-- `PATCH /repos/:repo/issues/:n` with a state — open or close the issue. -/
def patchState (st : Store) (n : Nat) (s : String) : Store :=
  setIssue st n (fun i => { i with state := s })

/-! ## Label helpers (`github.ts` `swapLabels`, `updateStatus`) -/

/-- `swapLabels(issueNumber, prefix, newLabel)`: fetch the issue, keep the
labels that do not start with the prefix, push the new label, and write the
full label set in a single PUT.  `none` when the issue fetch fails. -/
def swapLabels (st : Store) (n : Nat) (pre newLabel : String) : Option Store :=
  (getIssue st n).map fun issue =>
    let kept := issue.labels.filter (fun l => !(startsWithS l pre))
    putLabels st n (kept ++ [newLabel])

/-- `updateStatus` handler: swap the `status:` label, and close the issue
when the new status is `completed`. -/
def updateStatus (st : Store) (n : Nat) (status : String) : Option Store :=
  (swapLabels st n "status:" ("status:" ++ status)).map fun st1 =>
    if status == "completed" then patchState st1 n "closed" else st1


/-! ## Retrying HTTP wrapper (`github.ts` `gh`)

One tracker request with retry and backoff.  `responses : Nat → Option GhResp`
gives the response the network would produce for each attempt (`none` models
`fetch` itself throwing, i.e. a network error). -/

structure GhResp where
  status : Nat
  retryAfter : Option Nat
deriving Repr, DecidableEq

inductive GhErr where
  | http (status : Nat)
  | network
  | exhausted
deriving Repr, DecidableEq

inductive GhOutcome where
  | success (attempt : Nat)
  | failure (e : GhErr)
deriving Repr, DecidableEq

def MAX_RETRIES : Nat := 3

def BASE_DELAY_MS : Nat := 1000

/-- The body of the `for (attempt = 0; attempt < MAX_RETRIES; attempt++)`
loop of `gh`.  Returns the outcome, the number of fetch attempts actually
made, and the backoff delays slept (in ms), in order.  `lastError` is the
variable of the same name in the source; on a 403/429 the source sleeps
(honouring a `retry-after` header when present) and `continue`s without
touching `lastError`; a non-retryable 4xx is rethrown immediately; a 5xx or
network error is retried with exponential backoff while attempts remain. -/
def ghAux (responses : Nat → Option GhResp) :
    (attempt remaining : Nat) → Option GhErr → GhOutcome × Nat × List Nat
  | _, 0, lastError => (.failure (lastError.getD .exhausted), 0, [])
  | attempt, remaining + 1, lastError =>
    match responses attempt with
    | none =>
      let delays := if attempt < MAX_RETRIES - 1 then [BASE_DELAY_MS * 2 ^ attempt] else []
      let rest := ghAux responses (attempt + 1) remaining (some .network)
      (rest.1, rest.2.1 + 1, delays ++ rest.2.2)
    | some resp =>
      if resp.status == 403 || resp.status == 429 then
        let delay := match resp.retryAfter with
          | some ra => ra * 1000
          | none => BASE_DELAY_MS * 2 ^ attempt
        let rest := ghAux responses (attempt + 1) remaining lastError
        (rest.1, rest.2.1 + 1, delay :: rest.2.2)
      else if 200 ≤ resp.status && resp.status ≤ 299 then
        (.success attempt, 1, [])
      else if resp.status < 500 then
        (.failure (.http resp.status), 1, [])
      else
        let delays := if attempt < MAX_RETRIES - 1 then [BASE_DELAY_MS * 2 ^ attempt] else []
        let rest := ghAux responses (attempt + 1) remaining (some (.http resp.status))
        (rest.1, rest.2.1 + 1, delays ++ rest.2.2)

/-- `gh(path, opts)`: run the retry loop from attempt 0 with `MAX_RETRIES`
iterations available and no recorded error. -/
def gh (responses : Nat → Option GhResp) : GhOutcome × Nat × List Nat :=
  ghAux responses 0 MAX_RETRIES none

/-! ## Executor (`runner.ts` `executeTask`) -/

structure RTask where
  id : String
  title : String
  delegated_from : Option String
deriving Repr, DecidableEq

/-- The runner's module state: `processedTaskIds` and `currentTask`
(represented by the current task's id). -/
structure ExecState where
  processed : List String
  current : Option String
deriving Repr, DecidableEq

inductive ExecEv where
  | markProcessed (id : String)
  | statusUpdate (id status : String) (ok : Bool)
  | spawn (id : String)
  | notifyFail (receiver id : String)
deriving Repr, DecidableEq

/-- `executeTask(task)`, embedded as a state transition over one complete
invocation.  `statusOk` is the outcome of the best-effort
`PATCH /api/tasks/:id/status` call (its failure is logged, not fatal) and
`exitCode` the exit code of the spawned `claude` subprocess; the returned
event list records the side effects in program order.  The source returns
immediately — no effects at all — when the id was already processed this
process lifetime or when `currentTask` is set; on acceptance it adds the id
to `processedTaskIds` (never removed anywhere in the module), sets
`currentTask`, updates the status, spawns, and in the `finally` clears
`currentTask` only. -/
def executeTask (st : ExecState) (task : RTask) (statusOk : Bool)
    (exitCode : Int) : ExecState × List ExecEv :=
  if st.processed.contains task.id then (st, [])
  else if st.current.isSome then (st, [])
  else
    let evs := [ExecEv.markProcessed task.id,
                ExecEv.statusUpdate task.id "in_progress" statusOk,
                ExecEv.spawn task.id]
    let evs := evs ++
      (match exitCode == 0, task.delegated_from with
       | false, some sender => [ExecEv.notifyFail sender task.id]
       | _, _ => [])
    ({ processed := task.id :: st.processed, current := none }, evs)

/-! ## Message polling (`runner.ts` `fetchMessages`, `pollForMessages`)

Timestamps are modelled as naturals (ISO-8601 UTC strings of equal length
compare chronologically, and the source compares them with `<`/`>`). -/

structure Message where
  created_at : Nat
  sender_id : String
  content : String
deriving Repr, DecidableEq

/-- Modelled from the spec: the tracker's message-listing endpoint
(`GET /api/messages?agentId=..&since=..` — served by the LOTA web API,
which is not part of these sources) returns the stored messages created at
or after the requested `since` timestamp. -/
def fetchMessages (store : List Message) (since : Nat) : List Message :=
  store.filter (fun m => since ≤ m.created_at)

/-- `pollForMessages`: fetch messages since the last-seen timestamp,
deliver each to `handleMessage`, and advance the timestamp over each
message with a strictly later `created_at`.  Returns the new timestamp and
the delivered messages. -/
def pollForMessages (store : List Message) (lastTs : Nat) :
    Nat × List Message :=
  let msgs := fetchMessages store lastTs
  (msgs.foldl (fun ts m => if ts < m.created_at then m.created_at else ts) lastTs,
   msgs)

/-- The daemon's successive message polls: fold `pollForMessages` over the
message-store contents seen at each poll, starting from the timestamp
`main` initializes at startup (`lastMessageTimestamp = new Date()`).
Returns the final timestamp and every message ever handed to the
handler. -/
def runMessagePolls (startTs : Nat) : List (List Message) → Nat × List Message
  | [] => (startTs, [])
  | store :: rest =>
    let p := pollForMessages store startTs
    let later := runMessagePolls p.1 rest
    (later.1, p.2 ++ later.2)

/-! ## Git worktree merge-back (`worktree.ts`, `process.ts`)

The git primitives (`git.ts` wrappers over the git CLI) are modelled as an
oracle of outcomes consulted in program order. -/

structure WorktreeInfo where
  worktreePath : String
  branch : String
  originalWorkspace : String
deriving Repr, DecidableEq

structure MergeResult where
  success : Bool
  hasConflicts : Bool
  output : String
deriving Repr, DecidableEq

/-- Outcomes of the git primitives for one `mergeWorktree` run.
`mergeOk i` is the outcome of the `i`-th `git merge` of the task branch
into the default branch (`0` = the direct merge, `i ≥ 1` = the re-merge of
push retry `i`); `pushOk i` is the `i`-th push attempt of the push-retry
loop (1-based); `worktreeFound` says whether `git worktree list` locates an
existing worktree with the task branch checked out; `rebaseOk`, `ffOk` and
`rebasedPushOk` are the rebase, fast-forward merge and push outcomes of the
rebase fallback.  Stash/pull/reset outcomes do not influence the returned
`MergeResult` and are not recorded. -/
structure GitEnv where
  didStash : Bool
  mergeOk : Nat → Bool
  conflicts : Bool
  worktreeFound : Bool
  rebaseOk : Bool
  ffOk : Bool
  rebasedPushOk : Bool
  pushOk : Nat → Bool

/-- `tryRebaseThenMerge(workspace, branch)`: `none` exactly when the source
returns `null` — the worktree with the branch cannot be located, the rebase
itself conflicts (it is aborted), or the subsequent fast-forward merge
fails. -/
def tryRebaseThenMerge (g : GitEnv) : Option MergeResult :=
  if !g.worktreeFound then none
  else if !g.rebaseOk then none
  else if !g.ffOk then none
  else if !g.rebasedPushOk then
    some ⟨false, false, "Rebase+merge succeeded but push failed"⟩
  else some ⟨true, false, "Rebased and merged"⟩

/-- The push-retry loop of `mergeWorktree` (`for attempt in 1..3`):
push, and on failure reset hard, pull and re-merge before retrying.
`remaining` counts the iterations left (3 at entry). -/
def pushRetryLoop (g : GitEnv) : (attempt remaining : Nat) → MergeResult
  | _, 0 => ⟨false, false, "Push failed after 3 attempts"⟩
  | attempt, remaining + 1 =>
    if g.pushOk attempt then ⟨true, false, "Merged and pushed"⟩
    else if remaining == 0 then ⟨false, false, "Push failed after 3 attempts"⟩
    else if !(g.mergeOk attempt) then
      ⟨false, true, "Push retry: re-merge after pull failed"⟩
    else pushRetryLoop g (attempt + 1) remaining

/-- `mergeWorktree(workspace, branch)`: stash, pull, direct merge; on a
conflicting direct merge abort it and try the rebase fallback; otherwise
push with up to 3 attempts, re-pulling and re-merging between attempts. -/
def mergeWorktree (g : GitEnv) : MergeResult :=
  if !(g.mergeOk 0) then
    if g.conflicts then
      match tryRebaseThenMerge g with
      | some r => r
      | none => ⟨false, true, "Merge failed"⟩
    else ⟨false, false, "Merge failed"⟩
  else pushRetryLoop g 1 3

inductive PostEv where
  | cleanupWorktree (agentName branch : String)
  | taskComment (taskId : Nat) (content : String)
deriving Repr, DecidableEq

/-- The conflict comment `handlePostCompletion` posts on each task. -/
def conflictComment (branch worktreePath : String) : String :=
  "⚠️ **Merge conflict**: Agent completed work on branch `" ++ branch ++
  "` but auto-merge to main failed due to conflicts. Manual review needed.\n\nWorktree preserved at: `" ++
  worktreePath ++ "`"

/-- The worktree arm of `handlePostCompletion` (`process.ts`): on exit code
0 run `mergeWorktree`; clean up the worktree and branch on success and on
non-conflict failure, but on a conflict post a comment on every task of the
work item and leave worktree and branch alone; on a nonzero exit code just
clean up. -/
def handlePostCompletion (code : Int) (taskIds : List Nat) (w : WorktreeInfo)
    (agentName : String) (g : GitEnv) : List PostEv :=
  if code == 0 then
    let result := mergeWorktree g
    if result.success then [.cleanupWorktree agentName w.branch]
    else if result.hasConflicts then
      taskIds.map (fun t => .taskComment t (conflictComment w.branch w.worktreePath))
    else [.cleanupWorktree agentName w.branch]
  else [.cleanupWorktree agentName w.branch]

/-! ## Metadata codec (`github.ts` `parseMetadata`, `formatMetadata`)

Comment bodies are manipulated as character lists (`String.data`).  The
source serializes payloads with `JSON.stringify` and recovers them with a
regular expression match followed by `JSON.parse`; both are modelled
character-exactly below for the payload shapes this codec produces (flat
objects whose values are strings or arrays of strings). -/

def META_VERSION : String := "v1"

/-- `Array.prototype.join(sep)` on character lists. -/
def joinSep (sep : List Char) : List (List Char) → List Char
  | [] => []
  | [x] => x
  | x :: y :: rest => x ++ sep ++ joinSep sep (y :: rest)

/-- Lowercase hexadecimal digit (as produced by `JSON.stringify` in
`\u00XX` escapes). -/
def hexDigitChar (n : Nat) : Char :=
  if n < 10 then Char.ofNat (48 + n) else Char.ofNat (97 + (n - 10))

/-- `JSON.stringify` escaping of one character inside a string literal. -/
def jsonEscapeChar (c : Char) : List Char :=
  if c = '"' then ['\\', '"']
  else if c = '\\' then ['\\', '\\']
  else if c = '\n' then ['\\', 'n']
  else if c = '\r' then ['\\', 'r']
  else if c = '\t' then ['\\', 't']
  else if c = '\x08' then ['\\', 'b']
  else if c = '\x0c' then ['\\', 'f']
  else if c.toNat < 32 then
    ['\\', 'u', '0', '0', hexDigitChar (c.toNat / 16), hexDigitChar (c.toNat % 16)]
  else [c]

def escChars (s : List Char) : List Char := s.flatMap jsonEscapeChar

/-- `JSON.stringify` of a string value. -/
def serStr (s : String) : List Char := '"' :: escChars s.data ++ ['"']

/-- `JSON.stringify` of an array of strings. -/
def serStrList (xs : List String) : List Char :=
  '[' :: joinSep [','] (xs.map serStr) ++ [']']

/-- A JSON value of the shapes this codec stores: a string or an array of
strings. -/
inductive JVal where
  | jstr (s : String)
  | jarr (xs : List String)
deriving Repr, DecidableEq

/-- A JSON object, in key order. -/
abbrev JObj := List (String × JVal)

/-- `JSON.stringify` of one value. -/
def serVal : JVal → List Char
  | .jstr s => serStr s
  | .jarr xs => serStrList xs

/-- `JSON.stringify` of the `"key":value` fields of an object, joined by
commas. -/
def serFields (fields : JObj) : List Char :=
  joinSep [','] (fields.map (fun kv => serStr kv.1 ++ ':' :: serVal kv.2))

/-- `JSON.stringify` of an object (keys in insertion order). -/
def serObj (fields : JObj) : List Char :=
  '\x7b' :: serFields fields ++ ['\x7d']

/-- The object `savePlan` serializes:
`{goals, affected_files, effort, notes}` in insertion order, with an
`undefined` `notes` omitted (as `JSON.stringify` does). -/
def planData (goals affected_files : List String) (effort : String)
    (notes : Option String) : JObj :=
  [("goals", .jarr goals), ("affected_files", .jarr affected_files),
   ("effort", .jstr effort)]
  ++ (match notes with
      | some n => [("notes", .jstr n)]
      | none => [])

/-- `JSON.stringify({goals, affected_files, effort, notes})`. -/
def serPlanData (goals affected_files : List String) (effort : String)
    (notes : Option String) : List Char :=
  serObj (planData goals affected_files effort notes)

/-- The object `completeTask` serializes:
`{summary, modified_files, new_files}` with `undefined` lists omitted. -/
def reportData (summary : String)
    (modified_files new_files : Option (List String)) : JObj :=
  [("summary", .jstr summary)]
  ++ (match modified_files with
      | some xs => [("modified_files", .jarr xs)]
      | none => [])
  ++ (match new_files with
      | some xs => [("new_files", .jarr xs)]
      | none => [])

/-- `JSON.stringify({summary, modified_files, new_files})`. -/
def serReportData (summary : String)
    (modified_files new_files : Option (List String)) : List Char :=
  serObj (reportData summary modified_files new_files)

def hexVal (c : Char) : Option Nat :=
  if 48 ≤ c.toNat ∧ c.toNat ≤ 57 then some (c.toNat - 48)
  else if 97 ≤ c.toNat ∧ c.toNat ≤ 102 then some (c.toNat - 87)
  else if 65 ≤ c.toNat ∧ c.toNat ≤ 70 then some (c.toNat - 55)
  else none

/-- The single-character JSON string escapes accepted by `JSON.parse`. -/
def escDecode (e : Char) : Option Char :=
  if e = '"' then some '"'
  else if e = '\\' then some '\\'
  else if e = '/' then some '/'
  else if e = 'n' then some '\n'
  else if e = 't' then some '\t'
  else if e = 'r' then some '\r'
  else if e = 'b' then some '\x08'
  else if e = 'f' then some '\x0c'
  else none

/-- Read the remainder of a JSON string literal (the opening quote already
consumed): returns the decoded characters and the input after the closing
quote.  As in `JSON.parse`, escape sequences are decoded and a raw control
character or an unterminated literal is an error. -/
def readStrBody : List Char → Option (List Char × List Char)
  | [] => none
  | c :: rest =>
    if c = '"' then some ([], rest)
    else if c = '\\' then
      match rest with
      | [] => none
      | e :: rest2 =>
        if e = 'u' then
          match rest2 with
          | h1 :: h2 :: h3 :: h4 :: rest3 =>
            match hexVal h1, hexVal h2, hexVal h3, hexVal h4 with
            | some a, some b, some c3, some d =>
              let n := ((a * 16 + b) * 16 + c3) * 16 + d
              if n < 55296 then
                (readStrBody rest3).map (fun p => (Char.ofNat n :: p.1, p.2))
              else none
            | _, _, _, _ => none
          | _ => none
        else
          match escDecode e with
          | some d => (readStrBody rest2).map (fun p => (d :: p.1, p.2))
          | none => none
    else if c.toNat < 32 then none
    else (readStrBody rest).map (fun p => (c :: p.1, p.2))

/-- Read the items of a JSON array of strings after the opening bracket
(the empty-array case is handled by the caller): a string literal, then
either a comma and more items or the closing bracket.  `fuel` bounds the
number of items (the input length always suffices). -/
def readArrItems : Nat → List Char → Option (List String × List Char)
  | 0, _ => none
  | fuel + 1, '"' :: rest =>
    match readStrBody rest with
    | none => none
    | some (s, r) =>
      match r with
      | ',' :: r2 =>
        (readArrItems fuel r2).map (fun p => (String.mk s :: p.1, p.2))
      | ']' :: r2 => some ([String.mk s], r2)
      | _ => none
  | _ + 1, _ => none

/-- Read a JSON array of strings after the opening bracket. -/
def readArr (fuel : Nat) : List Char → Option (List String × List Char)
  | ']' :: r => some ([], r)
  | l => readArrItems fuel l

/-- Read a JSON value of the supported shapes. -/
def readVal : List Char → Option (JVal × List Char)
  | '"' :: rest => (readStrBody rest).map (fun p => (JVal.jstr (String.mk p.1), p.2))
  | '[' :: rest => (readArr rest.length rest).map (fun p => (JVal.jarr p.1, p.2))
  | _ => none

/-- Read the fields of a JSON object after the opening brace (the
empty-object case is handled by the caller): a `"key":value` pair, then
either a comma and more fields or the closing brace.  `fuel` bounds the
number of fields (the input length always suffices). -/
def readObjFields : Nat → List Char → Option (JObj × List Char)
  | 0, _ => none
  | fuel + 1, '"' :: rest =>
    match readStrBody rest with
    | none => none
    | some (k, r) =>
      match r with
      | ':' :: r2 =>
        match readVal r2 with
        | none => none
        | some (v, r3) =>
          match r3 with
          | ',' :: r4 =>
            (readObjFields fuel r4).map (fun p => ((String.mk k, v) :: p.1, p.2))
          | '\x7d' :: r4 => some ([(String.mk k, v)], r4)
          | _ => none
      | _ => none
  | _ + 1, _ => none

/-- `JSON.parse` on a captured payload, for the object shapes this codec
produces: the whole input must be one object. -/
def jsonParse (l : List Char) : Option JObj :=
  match l with
  | '\x7b' :: rest =>
    match rest with
    | '\x7d' :: r => if r.isEmpty then some [] else none
    | _ =>
      match readObjFields rest.length rest with
      | some (kvs, r) => if r.isEmpty then some kvs else none
      | none => none
  | _ => none

/-- The lazy part `(\x7b.*?\x7d) -->` of the metadata regular expression:
scan for the first closing brace that is followed by the comment
terminator, returning the (minimal) characters before it. -/
def lazyCapture : List Char → Option (List Char)
  | [] => none
  | c :: cs =>
    if c = '\x7d' && " -->".data.isPrefixOf cs then some []
    else (lazyCapture cs).map (c :: ·)

/-- Leftmost match of `<marker>(\x7b.*?\x7d) -->` (with `s` flag) against
the text, returning the captured group: at the first position where the
whole pattern matches, the capture extends to the first `\x7d -->`. -/
def matchPayload (marker : List Char) : List Char → Option (List Char)
  | [] => none
  | c :: cs =>
    if marker.isPrefixOf (c :: cs) then
      match (c :: cs).drop marker.length with
      | '\x7b' :: tail =>
        match lazyCapture tail with
        | some body => some ('\x7b' :: body ++ ['\x7d'])
        | none => matchPayload marker cs
      | _ => matchPayload marker cs
    else matchPayload marker cs

/-- `parseMetadata(body, type)`: try the versioned marker
`<!-- lota:v1:<type> {...} -->` and `JSON.parse` its capture; on a missing
match or a parse error fall back to the legacy marker
`<!-- lota:<type> {...} -->`; `none` when neither yields a payload. -/
def parseMetadata (body : String) (ty : String) : Option JObj :=
  let legacy :=
    match matchPayload ("<!-- lota:" ++ ty ++ " ").data body.data with
    | some cap => jsonParse cap
    | none => none
  match matchPayload ("<!-- lota:" ++ META_VERSION ++ ":" ++ ty ++ " ").data body.data with
  | some cap =>
    match jsonParse cap with
    | some v => some v
    | none => legacy
  | none => legacy

/-- `formatMetadata(type, data, humanText)`:
the human text, a blank line, and the versioned marker wrapping the
serialized payload. -/
def formatMetadata (ty : String) (dataSer : List Char) (human : List Char) :
    List Char :=
  human ++ "\n\n<!-- lota:".data ++ META_VERSION.data ++ ":".data ++ ty.data
    ++ " ".data ++ dataSer ++ " -->".data

/-! ## Plans and reports (`github.ts` `savePlan`, `getTask`, `completeTask`) -/

/-- JavaScript falsiness of a `string | undefined` value (used by the
template conditionals and `||` defaults in the handlers). -/
def jsFalsy : Option String → Bool
  | none => true
  | some s => s.isEmpty

/-- The human-readable part of the plan comment:
`## Plan\n` + one bullet per goal + optional effort line + optional
notes paragraph. -/
def planHuman (goals : List String) (effort notes : Option String) :
    List Char :=
  "## Plan\n".data ++ joinSep "\n".data (goals.map (fun g => "- ".data ++ g.data))
    ++ (if jsFalsy effort then [] else "\nEstimated effort: ".data ++ (effort.getD "").data)
    ++ (if jsFalsy notes then [] else "\n\n".data ++ (notes.getD "").data)

/-- The full plan comment posted by `savePlan`: human text plus embedded
payload with `affected_files` defaulted to `[]` and `effort` defaulted to
`"medium"` (via `||`). -/
def planComment (goals : List String) (affected_files : Option (List String))
    (effort notes : Option String) : List Char :=
  formatMetadata "plan"
    (serPlanData goals (affected_files.getD [])
      (if jsFalsy effort then "medium" else effort.getD "") notes)
    (planHuman goals effort notes)

/-- `savePlan` handler: append the plan comment to the issue (a missing
issue makes the comment POST fail). -/
def savePlan (st : Store) (n : Nat) (goals : List String)
    (affected_files : Option (List String)) (effort notes : Option String) :
    Option Store :=
  (getIssue st n).map fun _ =>
    postComment st n (String.mk (planComment goals affected_files effort notes))

/-- The plan `getTask` returns: scan the comments for a plan payload —
`comments.map(c => parseMetadata(c.body, "plan")).find(Boolean) || null`,
i.e. the first comment whose payload parses wins. -/
def getTaskPlan (st : Store) (n : Nat) : Option JObj :=
  (getIssue st n).bind fun i =>
    i.comments.findSome? (fun c => parseMetadata c "plan")

/-- The report `getTask` returns, likewise first-match-wins. -/
def getTaskReport (st : Store) (n : Nat) : Option JObj :=
  (getIssue st n).bind fun i =>
    i.comments.findSome? (fun c => parseMetadata c "report")

/-- The human-readable part of the completion report comment. -/
def reportHuman (summary : String) (modified_files new_files : Option (List String)) :
    List Char :=
  "## Completion Report\n".data ++ summary.data
    ++ (match modified_files with
        | some (x :: xs) =>
          "\n\nModified: ".data ++ joinSep ", ".data ((x :: xs).map String.data)
        | _ => [])
    ++ (match new_files with
        | some (x :: xs) =>
          "\nNew: ".data ++ joinSep ", ".data ((x :: xs).map String.data)
        | _ => [])

/-- The full report comment posted by `completeTask`. -/
def reportComment (summary : String) (modified_files new_files : Option (List String)) :
    List Char :=
  formatMetadata "report" (serReportData summary modified_files new_files)
    (reportHuman summary modified_files new_files)

/-! ## `completeTask` with its effect trace -/

inductive TrackerEv where
  | commentPosted (n : Nat)
  | labelsFetched (n : Nat)
  | labelsWritten (n : Nat)
  | issueClosed (n : Nat)
deriving Repr, DecidableEq

structure CallOutcome where
  store : Store
  trace : List TrackerEv
  ok : Bool
deriving Repr, DecidableEq

/-- `completeTask` handler: post the report comment, swap the status label
to `status:completed`, close the issue — in that order.  `commentOk`
injects the outcome of the comment POST: when it fails (or the issue does
not exist, making the POST a 404) the handler throws before any further
call, leaving the tracker untouched. -/
def completeTask (commentOk : Bool) (st : Store) (n : Nat) (summary : String)
    (modified_files new_files : Option (List String)) : CallOutcome :=
  let comment := String.mk (reportComment summary modified_files new_files)
  if !commentOk then ⟨st, [], false⟩
  else
    match getIssue st n with
    | none => ⟨st, [], false⟩
    | some _ =>
      let st1 := postComment st n comment
      match swapLabels st1 n "status:" ("status:" ++ "completed") with
      | none => ⟨st1, [.commentPosted n], false⟩
      | some st2 =>
        ⟨patchState st2 n "closed",
         [.commentPosted n, .labelsFetched n, .labelsWritten n, .issueClosed n],
         true⟩

/-! ## Router and dispatcher (`github.ts` `route`, `routes`, `lota`) -/

/-- A request body, as the handlers destructure it. -/
inductive ReqBody where
  | empty
  | statusBody (status : String)
  | commentBody (content : String)
  | metaBody (retries : Nat)
  | planBody (goals : List String) (affected_files : Option (List String))
      (effort notes : Option String)
  | completeBody (summary : String) (modified_files new_files : Option (List String))
  | createBody (title : String) (assign priority bodyText workspace : Option String)
deriving Repr, DecidableEq

/-- One segment of a route pattern: a literal, or a `:name` parameter
(compiled to `(\w+)` by the source's `route` helper). -/
inductive Seg where
  | lit (s : String)
  | param
deriving Repr, DecidableEq

def isWordChar (c : Char) : Bool := c.isAlphanum || c == '_'

/-- Match a pattern against the `/`-split path, returning the captured
parameter segments (a parameter matches one nonempty `\w+` segment). -/
def matchSegs : List Seg → List String → Option (List String)
  | [], [] => some []
  | .lit s :: ps, t :: ts => if s == t then matchSegs ps ts else none
  | .param :: ps, t :: ts =>
    if !t.isEmpty && t.data.all isWordChar then
      (matchSegs ps ts).map (t :: ·)
    else none
  | _, _ => none

/-- Compile a route path template: `:name` segments become parameters. -/
def routePattern (path : String) : List Seg :=
  (path.splitOn "/").map (fun s => if startsWithS s ":" then .param else .lit s)

abbrev Handler := List String → ReqBody → Store → Option Store

structure Route where
  method : String
  pattern : List Seg
  handler : Handler

/-- `GET /tasks` — list issues (read-only on the store). -/
def getTasksHandler : Handler := fun _ _ st => some st

/-- `GET /tasks/:id` — fetch issue and comments (read-only; 404 on a
missing issue). -/
def getTaskHandler : Handler := fun params _ st =>
  match params with
  | [id] => (id.toNat?).bind fun n => (getIssue st n).map (fun _ => st)
  | _ => none

/-- `POST /tasks` — create an issue carrying the `task`, `agent:` and
`status:assigned` labels (and `priority:` when given), with the workspace
embedded as body metadata when given. -/
def createTaskHandler (agentName : String) : Handler := fun _ body st =>
  match body with
  | .createBody title assign priority bodyText workspace =>
    let labels := ["task", "agent:" ++ assign.getD agentName, "status:assigned"]
      ++ (match priority with | some p => ["priority:" ++ p] | none => [])
    let finalBody := bodyText.getD ""
      ++ (match workspace with
          | some w =>
            String.mk ("\n\n<!-- lota:v1:meta ".data
              ++ ('\x7b' :: "\"workspace\":".data ++ serStr w ++ ['\x7d'])
              ++ " -->".data)
          | none => "")
    let n := st.issues.foldl (fun m i => max m i.number) 0 + 1
    some ⟨st.issues ++ [⟨n, title, labels, finalBody, [], "open"⟩]⟩
  | _ => none

/-- `POST /tasks/:id/plan` — `savePlan`. -/
def savePlanHandler : Handler := fun params body st =>
  match params, body with
  | [id], .planBody goals affected_files effort notes =>
    (id.toNat?).bind fun n => savePlan st n goals affected_files effort notes
  | _, _ => none

/-- `POST /tasks/:id/status` — `updateStatus`. -/
def updateStatusHandler : Handler := fun params body st =>
  match params, body with
  | [id], .statusBody status => (id.toNat?).bind fun n => updateStatus st n status
  | _, _ => none

/-- `POST /tasks/:id/complete` — `completeTask` (comment POST assumed to
succeed at the dispatcher level; its failure injection is studied on
`completeTask` directly). -/
def completeTaskHandler : Handler := fun params body st =>
  match params, body with
  | [id], .completeBody summary mf nf =>
    (id.toNat?).bind fun n =>
      let r := completeTask true st n summary mf nf
      if r.ok then some r.store else none
  | _, _ => none

/-- `POST /tasks/:id/comment` — `addComment` (404 on a missing issue). -/
def addCommentHandler : Handler := fun params body st =>
  match params, body with
  | [id], .commentBody content =>
    (id.toNat?).bind fun n =>
      (getIssue st n).map (fun _ => postComment st n content)
  | _, _ => none

/-- `GET /sync` — read-only. -/
def syncHandler : Handler := fun _ _ st => some st

/-- The route table of `github.ts`, verbatim: these are the only routes the
`lota` dispatcher knows. -/
def routes (agentName : String) : List Route :=
  [⟨"GET",  routePattern "/tasks",              getTasksHandler⟩,
   ⟨"GET",  routePattern "/tasks/:id",          getTaskHandler⟩,
   ⟨"POST", routePattern "/tasks",              createTaskHandler agentName⟩,
   ⟨"POST", routePattern "/tasks/:id/plan",     savePlanHandler⟩,
   ⟨"POST", routePattern "/tasks/:id/status",   updateStatusHandler⟩,
   ⟨"POST", routePattern "/tasks/:id/complete", completeTaskHandler⟩,
   ⟨"POST", routePattern "/tasks/:id/comment",  addCommentHandler⟩,
   ⟨"GET",  routePattern "/sync",               syncHandler⟩]

/-- The `lota(method, path, body)` dispatcher: the first route whose method
and pattern match runs; no match throws `LOTA_UNKNOWN_ROUTE` (`none`). -/
def lota (agentName : String) (st : Store) (method path : String)
    (body : ReqBody) : Option Store :=
  match (routes agentName).find?
      (fun r => r.method == method && (matchSegs r.pattern (path.splitOn "/")).isSome) with
  | some r => (matchSegs r.pattern (path.splitOn "/")).bind
      (fun params => r.handler params body st)
  | none => none

/-! ## Recovery scheduler (daemon recovery module) -/

structure StaleTask where
  id : Nat
  title : String
  assignee : Option String
  retries : Option Nat
deriving Repr, DecidableEq

/-- `safeLota`: run a dispatcher call, returning the unchanged store and
`ok = false` when the call throws. -/
def safeLota (agentName : String) (st : Store) (method path : String)
    (body : ReqBody) : Store × Bool :=
  match lota agentName st method path body with
  | some st1 => (st1, true)
  | none => (st, false)

/-- `recoverOrFailTask(task, details, config)`, restricted to its tracker
effects (the Telegram notification and the stale-worktree cleanup of the
workspace touch no tracker state).  `retries < 3`: persist the incremented
counter (early-returning if that fails), reset the status to `assigned`,
post the recovery comment.  `retries >= 3`: set the status to `failed`
(early-returning if that fails) and post the failure comment. -/
def recoverOrFailTask (agentName : String) (st : Store) (task : StaleTask) :
    Store :=
  let retryCount := task.retries.getD 0
  if retryCount < 3 then
    let nextRetry := retryCount + 1
    let r1 := safeLota agentName st "PATCH" ("/tasks/" ++ toString task.id ++ "/meta")
      (.metaBody nextRetry)
    if !r1.2 then r1.1
    else
      let r2 := safeLota agentName r1.1 "POST"
        ("/tasks/" ++ toString task.id ++ "/status") (.statusBody "assigned")
      let r3 := safeLota agentName r2.1 "POST"
        ("/tasks/" ++ toString task.id ++ "/comment")
        (.commentBody ("🔄 Auto-recovery: task was in-progress when agent crashed (retry "
          ++ toString nextRetry ++ "/3)."))
      r3.1
  else
    let r1 := safeLota agentName st "POST"
      ("/tasks/" ++ toString task.id ++ "/status") (.statusBody "failed")
    if !r1.2 then r1.1
    else
      let r2 := safeLota agentName r1.1 "POST"
        ("/tasks/" ++ toString task.id ++ "/comment")
        (.commentBody "❌ Task failed after 3 crash recoveries. Manual review needed.")
      r2.1

/-! ## Concrete data for counterexamples and witnesses -/

/-- An earlier plan comment (as posted by `savePlan`). -/
def cexComment6a : String :=
  String.mk (planComment ["first goal"] (some []) (some "low") none)

/-- A later plan comment for the same task. -/
def cexComment6b : String :=
  String.mk (planComment ["second goal"] (some []) (some "high") none)

/-- An earlier report comment (as posted by `complete`). -/
def cexComment6c : String :=
  String.mk (reportComment "first report" (some ["a.ts"]) none)

/-- A later report comment for the same task. -/
def cexComment6d : String :=
  String.mk (reportComment "second report" none (some ["b.ts"]))

/-- A task whose comments carry two plan payloads and then two report
payloads (comments in API order, oldest first). -/
def cexStore6 : Store :=
  ⟨[⟨1, "demo task", ["task", "agent:lota", "status:assigned"], "",
     [cexComment6a, cexComment6b, cexComment6c, cexComment6d], "open"⟩]⟩

/-- A text value is clean for the metadata codec when it contains neither a
closing brace (which would let the non-greedy payload capture stop early)
nor the character starting a metadata marker. -/
def cleanText (s : String) : Prop := '\x7d' ∉ s.data ∧ '<' ∉ s.data

instance (s : String) : Decidable (cleanText s) :=
  inferInstanceAs (Decidable (_ ∧ _))

/-- A task with no comments yet. -/
def cexStore5 : Store :=
  ⟨[⟨1, "fresh task", ["task", "agent:lota", "status:assigned"], "", [], "open"⟩]⟩

/-! ## Lemmas about the store model -/

theorem getIssue_setIssue (st : Store) (n : Nat) (f : Issue → Issue)
    (hf : ∀ i, (f i).number = i.number) (m : Nat) :
    getIssue (setIssue st n f) m =
      (getIssue st m).map (fun i => if i.number == n then f i else i) := by
  unfold getIssue setIssue
  induction st.issues with
  | nil => rfl
  | cons a l ih =>
    simp only [List.map_cons]
    by_cases ha : (a.number == m) = true
    · have h2 : ((if a.number == n then f a else a).number == m) = true := by
        by_cases h : (a.number == n) = true <;> simp_all [hf]
      simp only [List.find?, ha, h2]
      rfl
    · have ha' : (a.number == m) = false := by simpa using ha
      have h2 : ((if a.number == n then f a else a).number == m) = false := by
        by_cases h : (a.number == n) = true <;> simp_all [hf]
      simp only [List.find?, ha', h2]
      exact ih

theorem getIssue_setIssue_self (st : Store) (n : Nat) (f : Issue → Issue)
    (hf : ∀ i, (f i).number = i.number) :
    getIssue (setIssue st n f) n = (getIssue st n).map f := by
  rw [getIssue_setIssue st n f hf n]
  cases h : getIssue st n with
  | none => rfl
  | some i =>
    have hi : i.number = n := by
      have := List.find?_some h
      simpa [getIssue] using this
    simp [hi]

theorem getIssue_putLabels (st : Store) (n : Nat) (ls : List String) :
    getIssue (putLabels st n ls) n =
      (getIssue st n).map (fun i => { i with labels := ls }) := by
  exact getIssue_setIssue_self st n (fun i => { i with labels := ls }) (fun i => rfl)

theorem getIssue_patchState (st : Store) (n : Nat) (s : String) :
    getIssue (patchState st n s) n =
      (getIssue st n).map (fun i => { i with state := s }) := by
  exact getIssue_setIssue_self st n (fun i => { i with state := s }) (fun i => rfl)

theorem getIssue_postComment (st : Store) (n : Nat) (c : String) :
    getIssue (postComment st n c) n =
      (getIssue st n).map (fun i => { i with comments := i.comments ++ [c] }) := by
  exact getIssue_setIssue_self st n
    (fun i => { i with comments := i.comments ++ [c] }) (fun i => rfl)

theorem startsWithS_append (p s : String) : startsWithS (p ++ s) p = true := by
  simp [startsWithS, String.data_append, List.isPrefixOf_iff_prefix]

/-- After `swapLabels`, the labels starting with the prefix are exactly the
newly written label (given that it does carry the prefix). -/
theorem swapLabels_filter (st : Store) (n : Nat) (pre newLabel : String)
    (issue : Issue) (hIss : getIssue st n = some issue)
    (hNew : startsWithS newLabel pre = true) :
    ((swapLabels st n pre newLabel).bind (fun st1 => getIssue st1 n)).map
        (fun i => i.labels.filter (fun l => startsWithS l pre)) =
      some [newLabel] := by
  unfold swapLabels
  rw [hIss]
  simp only [Option.map_some', Option.some_bind]
  rw [getIssue_putLabels, hIss]
  simp only [Option.map_some']
  congr 1
  rw [List.filter_append, List.filter_filter]
  have h1 : List.filter (fun a => startsWithS a pre && !(startsWithS a pre))
      issue.labels = [] := by
    apply List.filter_eq_nil_iff.mpr
    intro a _
    simp
  rw [h1, List.nil_append]
  simp [hNew]


/-! ## C4: retry bound of the HTTP wrapper -/

/-- C4: a tracker request whose response is always HTTP 429 (with a
server-provided `retry-after` of `ra` seconds) makes exactly the configured
maximum of `MAX_RETRIES = 3` attempts, sleeps the server-provided delay
(in ms) before each retry, and then propagates a failure to the caller —
it never loops. -/
theorem claim_C4_retry_bound (responses : Nat → Option GhResp) (ra : Nat)
    (h : ∀ i, responses i = some ⟨429, some ra⟩) :
    gh responses =
      (.failure .exhausted, MAX_RETRIES, [ra * 1000, ra * 1000, ra * 1000]) := by
  simp [gh, ghAux, MAX_RETRIES, h]

theorem claim_C4_retry_bound_witness :
    gh (fun _ => some ⟨429, some 7⟩) =
      (.failure .exhausted, MAX_RETRIES, [7 * 1000, 7 * 1000, 7 * 1000]) :=
  claim_C4_retry_bound (fun _ => some ⟨429, some 7⟩) 7 (fun _ => rfl)

/-! ## C8 / C10: executor single-flight and processed-set persistence -/

/-- C8: `execute` is a no-op — state unchanged, no status update, no
processed-set insertion, no subprocess spawned — when another task is
currently executing, and likewise when the task id was already processed
this process lifetime. -/
theorem claim_C8_single_flight (st : ExecState) (task : RTask)
    (statusOk : Bool) (exitCode : Int)
    (h : st.current.isSome = true ∨ task.id ∈ st.processed) :
    executeTask st task statusOk exitCode = (st, []) := by
  unfold executeTask
  rcases h with h | h
  · by_cases hp : task.id ∈ st.processed
    · simp [hp]
    · simp [hp, h]
  · simp [h]

theorem claim_C8_single_flight_witness :
    executeTask ⟨["t1"], some "t1"⟩ ⟨"t2", "second task", none⟩ true 0 =
      (⟨["t1"], some "t1"⟩, []) :=
  claim_C8_single_flight _ _ _ _ (Or.inl rfl)

/-- C10: once `execute` accepts a task, the id is recorded in the processed
set (the mark-processed effect precedes the spawn), stays there for every
status-update outcome and subprocess exit code, and any later `execute`
call for the same id within the process lifetime is a no-op on the
resulting state. -/
theorem claim_C10_processed_sticky (st : ExecState) (task : RTask)
    (statusOk : Bool) (exitCode : Int) (statusOk' : Bool) (exitCode' : Int)
    (h1 : task.id ∉ st.processed)
    (h2 : st.current = none) :
    (executeTask st task statusOk exitCode).1.processed = task.id :: st.processed ∧
    (executeTask st task statusOk exitCode).1.current = none ∧
    (executeTask st task statusOk exitCode).2.take 3 =
      [.markProcessed task.id, .statusUpdate task.id "in_progress" statusOk,
       .spawn task.id] ∧
    executeTask (executeTask st task statusOk exitCode).1 task statusOk' exitCode' =
      ((executeTask st task statusOk exitCode).1, []) := by
  unfold executeTask
  simp [h1, h2]

theorem claim_C10_processed_sticky_witness :
    (executeTask ⟨[], none⟩ ⟨"t1", "a task", some "boss"⟩ false 1).1.processed =
        "t1" :: [] ∧
    (executeTask ⟨[], none⟩ ⟨"t1", "a task", some "boss"⟩ false 1).1.current = none ∧
    (executeTask ⟨[], none⟩ ⟨"t1", "a task", some "boss"⟩ false 1).2.take 3 =
      [.markProcessed "t1", .statusUpdate "t1" "in_progress" false, .spawn "t1"] ∧
    executeTask (executeTask ⟨[], none⟩ ⟨"t1", "a task", some "boss"⟩ false 1).1
        ⟨"t1", "a task", some "boss"⟩ true 0 =
      ((executeTask ⟨[], none⟩ ⟨"t1", "a task", some "boss"⟩ false 1).1, []) :=
  claim_C10_processed_sticky ⟨[], none⟩ ⟨"t1", "a task", some "boss"⟩ false 1 true 0
    (by decide) rfl

/-! ## C7: conflicts preserve the worktree and are reported -/

/-- C7: when the direct merge of the task branch conflicts and the rebase
fallback also conflicts or cannot run (`tryRebaseThenMerge` returns
`none`), post-completion deletes neither the worktree nor the branch (no
cleanup event at all) and posts a conflict comment on every associated
task. -/
theorem claim_C7_conflict_preserved (g : GitEnv) (taskIds : List Nat)
    (w : WorktreeInfo) (agentName : String)
    (h1 : g.mergeOk 0 = false) (h2 : g.conflicts = true)
    (h3 : tryRebaseThenMerge g = none) :
    handlePostCompletion 0 taskIds w agentName g =
      taskIds.map (fun t => .taskComment t (conflictComment w.branch w.worktreePath)) := by
  unfold handlePostCompletion mergeWorktree
  simp [h1, h2, h3]

theorem claim_C7_conflict_preserved_witness :
    handlePostCompletion 0 [4, 5]
        ⟨"/ws/.worktrees/lota", "task-4-lota", "/ws"⟩ "lota"
        ⟨false, fun _ => false, true, true, false, false, false, fun _ => false⟩ =
      [.taskComment 4 (conflictComment "task-4-lota" "/ws/.worktrees/lota"),
       .taskComment 5 (conflictComment "task-4-lota" "/ws/.worktrees/lota")] :=
  claim_C7_conflict_preserved
    ⟨false, fun _ => false, true, true, false, false, false, fun _ => false⟩
    [4, 5] ⟨"/ws/.worktrees/lota", "task-4-lota", "/ws"⟩ "lota" rfl rfl rfl

/-! ## C9: no pre-startup message is ever delivered -/

theorem pollForMessages_ts_mono (store : List Message) (lastTs : Nat) :
    lastTs ≤ (pollForMessages store lastTs).1 := by
  unfold pollForMessages fetchMessages
  generalize store.filter (fun m => decide (lastTs ≤ m.created_at)) = msgs
  induction msgs generalizing lastTs with
  | nil => simp
  | cons m rest ih =>
    simp only [List.foldl_cons]
    refine Nat.le_trans ?_ (ih _)
    split <;> omega

theorem pollForMessages_delivered (store : List Message) (lastTs : Nat)
    (m : Message) (hm : m ∈ (pollForMessages store lastTs).2) :
    lastTs ≤ m.created_at := by
  unfold pollForMessages fetchMessages at hm
  simp only [List.mem_filter, decide_eq_true_eq] at hm
  exact hm.2

/-- C9: the daemon never hands the message handler a message whose
`created_at` is earlier than the startup timestamp: the last-seen timestamp
starts at the startup time, every poll requests only messages since that
timestamp, and the timestamp only advances. -/
theorem claim_C9_no_pre_startup_delivery (startTs : Nat)
    (stores : List (List Message)) (m : Message)
    (hm : m ∈ (runMessagePolls startTs stores).2) :
    ¬ m.created_at < startTs := by
  suffices h : startTs ≤ m.created_at by omega
  induction stores generalizing startTs with
  | nil => simp [runMessagePolls] at hm
  | cons store rest ih =>
    simp only [runMessagePolls, List.mem_append] at hm
    rcases hm with hm | hm
    · exact pollForMessages_delivered store startTs m hm
    · exact Nat.le_trans (pollForMessages_ts_mono store startTs) (ih _ hm)

theorem claim_C9_no_pre_startup_delivery_witness :
    ¬ (Message.mk 150 "peer" "hello").created_at < 100 :=
  claim_C9_no_pre_startup_delivery 100 [[⟨150, "peer", "hello"⟩]]
    ⟨150, "peer", "hello"⟩ (by simp [runMessagePolls, pollForMessages, fetchMessages])

/-! ## C1: the recovery path for `retries < 3` is broken -/

/-- The dispatcher has no `PATCH` route at all: every route in the table is
`GET` or `POST`, so any `PATCH` call throws `LOTA_UNKNOWN_ROUTE`. -/
theorem lota_patch_none (agentName : String) (st : Store) (path : String)
    (body : ReqBody) :
    lota agentName st "PATCH" path body = none := by
  unfold lota routes
  simp [List.find?]

/-- C1 (refuting the claimed recovery of a task with `retries < 3`): for a
stale task with persisted `retries = 2` the recovery scheduler leaves the
tracker completely unchanged — the counter is not incremented, the status
is not reset to `assigned`, and no comment is posted — because the
`PATCH /tasks/:id/meta` call it starts with matches no route in the
dispatcher's table, and the failure makes `recoverOrFailTask` return
early. -/
theorem claim_C1_recovery_broken (agentName : String) (st : Store)
    (id : Nat) (title : String) (assignee : Option String) :
    recoverOrFailTask agentName st ⟨id, title, assignee, some 2⟩ = st := by
  unfold recoverOrFailTask safeLota
  simp [lota_patch_none]

/-! ## C2: `updateStatus` leaves exactly one status label -/

/-- C2: for every issue label set — including sets with more than one
status-prefixed label — `updateStatus` leaves the issue with exactly one
status-prefixed label afterwards, namely the newly written one: the
read-modify-write filters every label starting with the prefix and writes
the full resulting set in one call. -/
theorem claim_C2_unique_status (st : Store) (n : Nat) (status : String)
    (issue : Issue) (hIss : getIssue st n = some issue) :
    ((updateStatus st n status).bind (fun st1 => getIssue st1 n)).map
        (fun i => i.labels.filter (fun l => startsWithS l "status:")) =
      some ["status:" ++ status] := by
  have hsw := swapLabels_filter st n "status:" ("status:" ++ status) issue hIss
    (startsWithS_append _ _)
  unfold updateStatus
  cases hswv : swapLabels st n "status:" ("status:" ++ status) with
  | none => rw [hswv] at hsw; simp at hsw
  | some st1 =>
    rw [hswv] at hsw
    simp only [Option.some_bind, Option.map_some'] at hsw ⊢
    by_cases hc : (status == "completed") = true
    · simp only [hc, if_true]
      rw [getIssue_patchState]
      cases hgi : getIssue st1 n with
      | none => rw [hgi] at hsw; simp at hsw
      | some i =>
        rw [hgi] at hsw
        simpa using hsw
    · simp only [hc, if_false]
      exact hsw

theorem claim_C2_unique_status_witness :
    ((updateStatus ⟨[⟨1, "demo", ["task", "status:assigned", "status:in-progress",
        "agent:lota"], "", [], "open"⟩]⟩ 1 "completed").bind
          (fun st1 => getIssue st1 1)).map
        (fun i => i.labels.filter (fun l => startsWithS l "status:")) =
      some ["status:" ++ "completed"] :=
  claim_C2_unique_status
    ⟨[⟨1, "demo", ["task", "status:assigned", "status:in-progress",
        "agent:lota"], "", [], "open"⟩]⟩ 1 "completed"
    ⟨1, "demo", ["task", "status:assigned", "status:in-progress",
        "agent:lota"], "", [], "open"⟩ rfl

/-! ## C3: `complete` effect order and failure atomicity -/

/-- C3: `complete` performs its effects in the order comment → status →
close: when everything succeeds its tracker trace is exactly [report
comment posted, labels fetched, labels written, issue closed], the final
status labels are exactly `status:completed` and the issue is closed; and
whenever the comment write fails, the handler throws with the tracker —
in particular the task's status — left completely unchanged. -/
theorem claim_C3_complete_order (st : Store) (n : Nat) (summary : String)
    (mf nf : Option (List String)) (issue : Issue)
    (hIss : getIssue st n = some issue) :
    completeTask false st n summary mf nf = ⟨st, [], false⟩ ∧
    (completeTask true st n summary mf nf).trace =
      [.commentPosted n, .labelsFetched n, .labelsWritten n, .issueClosed n] ∧
    ((getIssue (completeTask true st n summary mf nf).store n).map
        (fun i => (i.labels.filter (fun l => startsWithS l "status:"), i.state))) =
      some (["status:" ++ "completed"], "closed") := by
  have hIss1 : getIssue (postComment st n
      (String.mk (reportComment summary mf nf))) n =
      some { issue with comments := issue.comments ++
        [String.mk (reportComment summary mf nf)] } := by
    rw [getIssue_postComment, hIss]; rfl
  have hsw := swapLabels_filter (postComment st n
      (String.mk (reportComment summary mf nf))) n "status:"
      ("status:" ++ "completed") _ hIss1 (startsWithS_append _ _)
  cases hswv : swapLabels (postComment st n
      (String.mk (reportComment summary mf nf))) n "status:"
      ("status:" ++ "completed") with
  | none => rw [hswv] at hsw; simp at hsw
  | some st2 =>
    rw [hswv] at hsw
    simp only [Option.some_bind, Option.map_some'] at hsw
    have hst : (completeTask true st n summary mf nf).store =
        patchState st2 n "closed" := by
      unfold completeTask
      simp only [hIss, hswv]
      rfl
    have htr : (completeTask true st n summary mf nf).trace =
        [.commentPosted n, .labelsFetched n, .labelsWritten n, .issueClosed n] := by
      unfold completeTask
      simp only [hIss, hswv]
      rfl
    refine ⟨rfl, htr, ?_⟩
    rw [hst, getIssue_patchState]
    cases hgi : getIssue st2 n with
    | none => rw [hgi] at hsw; simp at hsw
    | some i =>
      rw [hgi] at hsw
      simp only [Option.map_some'] at hsw ⊢
      simp only [Option.some.injEq, Prod.mk.injEq] at hsw ⊢
      exact ⟨hsw, trivial⟩

theorem claim_C3_complete_order_witness :
    completeTask false ⟨[⟨1, "demo", ["task", "status:in-progress"], "", [],
        "open"⟩]⟩ 1 "did it" (some ["a.ts"]) none =
      ⟨⟨[⟨1, "demo", ["task", "status:in-progress"], "", [], "open"⟩]⟩, [], false⟩ ∧
    (completeTask true ⟨[⟨1, "demo", ["task", "status:in-progress"], "", [],
        "open"⟩]⟩ 1 "did it" (some ["a.ts"]) none).trace =
      [.commentPosted 1, .labelsFetched 1, .labelsWritten 1, .issueClosed 1] ∧
    ((getIssue (completeTask true ⟨[⟨1, "demo", ["task", "status:in-progress"],
        "", [], "open"⟩]⟩ 1 "did it" (some ["a.ts"]) none).store 1).map
        (fun i => (i.labels.filter (fun l => startsWithS l "status:"), i.state))) =
      some (["status:" ++ "completed"], "closed") :=
  claim_C3_complete_order ⟨[⟨1, "demo", ["task", "status:in-progress"], "", [],
    "open"⟩]⟩ 1 "did it" (some ["a.ts"]) none
    ⟨1, "demo", ["task", "status:in-progress"], "", [], "open"⟩ rfl


/-! ## C6: `get` takes the first payload, not the latest -/

theorem findSome?_first_some {α β : Type} (f : α → Option β) (pre : List α)
    (c : α) (post : List α) (p : β)
    (hpre : ∀ x ∈ pre, f x = none) (hc : f c = some p) :
    (pre ++ c :: post).findSome? f = some p := by
  induction pre with
  | nil => simp [List.findSome?_cons, hc]
  | cons a rest ih =>
    have ha : f a = none := hpre a (by simp)
    simp only [List.cons_append, List.findSome?_cons, ha]
    exact ih (fun x hx => hpre x (by simp [hx]))

/-- C6 (counterexample): with two plan payloads among the comments, `get`
returns the payload of the FIRST plan comment, not that of the latest one
(the second comment does carry the later payload, and the two differ). -/
theorem claim_C6_counterexample :
    getTaskPlan cexStore6 1 =
      some [("goals", .jarr ["first goal"]), ("affected_files", .jarr []),
            ("effort", .jstr "low")] ∧
    parseMetadata cexComment6b "plan" =
      some [("goals", .jarr ["second goal"]), ("affected_files", .jarr []),
            ("effort", .jstr "high")] ∧
    ([("goals", JVal.jarr ["first goal"]), ("affected_files", JVal.jarr []),
      ("effort", JVal.jstr "low")] : JObj) ≠
      [("goals", .jarr ["second goal"]), ("affected_files", .jarr []),
       ("effort", .jstr "high")] := by
  refine ⟨by decide, by decide, by decide⟩

/-- C6 (as amended): scanning the comments in order, `get` extracts the
FIRST plan payload and the FIRST report payload that parse — first match
wins — so with several embedded payloads the earliest one of each kind is
returned. -/
theorem claim_C6_first_match (st : Store) (n : Nat) (issue : Issue)
    (pre1 : List String) (c1 : String) (post1 : List String) (p : JObj)
    (pre2 : List String) (c2 : String) (post2 : List String) (q : JObj)
    (hIss : getIssue st n = some issue)
    (hc1 : issue.comments = pre1 ++ c1 :: post1)
    (hpre1 : ∀ c ∈ pre1, parseMetadata c "plan" = none)
    (hp : parseMetadata c1 "plan" = some p)
    (hc2 : issue.comments = pre2 ++ c2 :: post2)
    (hpre2 : ∀ c ∈ pre2, parseMetadata c "report" = none)
    (hq : parseMetadata c2 "report" = some q) :
    getTaskPlan st n = some p ∧ getTaskReport st n = some q := by
  unfold getTaskPlan getTaskReport
  rw [hIss]
  constructor
  · rw [Option.some_bind, hc1]
    exact findSome?_first_some _ pre1 c1 post1 p hpre1 hp
  · rw [Option.some_bind, hc2]
    exact findSome?_first_some _ pre2 c2 post2 q hpre2 hq

theorem claim_C6_first_match_witness :
    getTaskPlan cexStore6 1 =
      some [("goals", .jarr ["first goal"]), ("affected_files", .jarr []),
            ("effort", .jstr "low")] ∧
    getTaskReport cexStore6 1 =
      some [("summary", .jstr "first report"),
            ("modified_files", .jarr ["a.ts"])] :=
  claim_C6_first_match cexStore6 1
    ⟨1, "demo task", ["task", "agent:lota", "status:assigned"], "",
     [cexComment6a, cexComment6b, cexComment6c, cexComment6d], "open"⟩
    [] cexComment6a [cexComment6b, cexComment6c, cexComment6d]
    [("goals", .jarr ["first goal"]), ("affected_files", .jarr []),
     ("effort", .jstr "low")]
    [cexComment6a, cexComment6b] cexComment6c [cexComment6d]
    [("summary", .jstr "first report"), ("modified_files", .jarr ["a.ts"])]
    rfl rfl (by decide) (by decide)
    rfl (by decide) (by decide)



/-! ## JSON codec roundtrip: string literals -/

theorem hexVal_hexDigitChar : ∀ n : Nat, n < 16 → hexVal (hexDigitChar n) = some n := by
  decide

theorem readStrBody_esc (s : List Char) (r : List Char) :
    readStrBody (escChars s ++ '"' :: r) = some (s, r) := by
  induction s with
  | nil =>
    show readStrBody ('"' :: r) = some ([], r)
    rw [readStrBody.eq_def]
    simp
  | cons c cs ih =>
    rw [show escChars (c :: cs) = jsonEscapeChar c ++ escChars cs from by
      simp [escChars], List.append_assoc]
    by_cases h1 : c = '"'
    · subst h1
      rw [show jsonEscapeChar '"' = ['\\', '"'] from rfl]
      simp only [List.cons_append, List.nil_append]
      rw [readStrBody.eq_def]
      simp +decide [escDecode, ih]
    · by_cases h2 : c = '\\'
      · subst h2
        rw [show jsonEscapeChar '\\' = ['\\', '\\'] from rfl]
        simp only [List.cons_append, List.nil_append]
        rw [readStrBody.eq_def]
        simp +decide [escDecode, ih]
      · by_cases h3 : c = '\n'
        · subst h3
          rw [show jsonEscapeChar '\n' = ['\\', 'n'] from rfl]
          simp only [List.cons_append, List.nil_append]
          rw [readStrBody.eq_def]
          simp +decide [escDecode, ih]
        · by_cases h4 : c = '\r'
          · subst h4
            rw [show jsonEscapeChar '\r' = ['\\', 'r'] from rfl]
            simp only [List.cons_append, List.nil_append]
            rw [readStrBody.eq_def]
            simp +decide [escDecode, ih]
          · by_cases h5 : c = '\t'
            · subst h5
              rw [show jsonEscapeChar '\t' = ['\\', 't'] from rfl]
              simp only [List.cons_append, List.nil_append]
              rw [readStrBody.eq_def]
              simp +decide [escDecode, ih]
            · by_cases h6 : c = '\x08'
              · subst h6
                rw [show jsonEscapeChar '\x08' = ['\\', 'b'] from rfl]
                simp only [List.cons_append, List.nil_append]
                rw [readStrBody.eq_def]
                simp +decide [escDecode, ih]
              · by_cases h7 : c = '\x0c'
                · subst h7
                  rw [show jsonEscapeChar '\x0c' = ['\\', 'f'] from rfl]
                  simp only [List.cons_append, List.nil_append]
                  rw [readStrBody.eq_def]
                  simp +decide [escDecode, ih]
                · by_cases h8 : c.toNat < 32
                  · have he : jsonEscapeChar c = ['\\', 'u', '0', '0',
                        hexDigitChar (c.toNat / 16), hexDigitChar (c.toNat % 16)] := by
                      simp [jsonEscapeChar, h1, h2, h3, h4, h5, h6, h7, h8]
                    rw [he]
                    simp only [List.cons_append, List.nil_append]
                    have hd1 : hexVal (hexDigitChar (c.toNat / 16)) =
                        some (c.toNat / 16) := hexVal_hexDigitChar _ (by omega)
                    have hd2 : hexVal (hexDigitChar (c.toNat % 16)) =
                        some (c.toNat % 16) := hexVal_hexDigitChar _ (by omega)
                    have h0 : hexVal '0' = some 0 := rfl
                    rw [readStrBody.eq_def]
                    simp +decide [hd1, hd2, h0]
                    have hn : c.toNat / 16 * 16 + c.toNat % 16 = c.toNat := by
                      omega
                    rw [hn]
                    exact ⟨by omega, ih, Char.ofNat_toNat c⟩
                  · have he : jsonEscapeChar c = [c] := by
                      simp [jsonEscapeChar, h1, h2, h3, h4, h5, h6, h7, h8]
                    rw [he]
                    simp only [List.cons_append, List.nil_append]
                    rw [readStrBody.eq_def]
                    simp [h1, h2, h8, ih]

theorem readVal_serStr (e : String) (r : List Char) :
    readVal (serStr e ++ r) = some (.jstr e, r) := by
  unfold serStr
  simp only [List.cons_append, List.append_assoc, List.singleton_append]
  rw [readVal.eq_def]
  simp [readStrBody_esc]


/-! ## JSON codec roundtrip: arrays and objects -/

theorem serStrList_interior_length (xs : List String) :
    xs.length ≤ (joinSep [','] (xs.map serStr)).length := by
  induction xs with
  | nil => simp [joinSep]
  | cons x rest ih =>
    cases rest with
    | nil =>
      simp only [List.map_cons, List.map_nil, joinSep, List.length_cons,
        List.length_nil, serStr, List.length_append]
      omega
    | cons y t =>
      simp only [List.map_cons, joinSep, List.length_append, List.length_cons] at ih ⊢
      have hx : 1 ≤ (serStr x).length := by
        simp [serStr]
      omega

theorem readArrItems_ser (x : String) (xs : List String) :
    ∀ (f : Nat) (r : List Char), (x :: xs).length ≤ f →
    readArrItems f (joinSep [','] ((x :: xs).map serStr) ++ ']' :: r) =
      some (x :: xs, r) := by
  induction xs generalizing x with
  | nil =>
    intro f r hf
    obtain ⟨f', rfl⟩ : ∃ f', f = f' + 1 := ⟨f - 1, by simp at hf; omega⟩
    rw [show joinSep [','] (([x] : List String).map serStr) = serStr x from rfl]
    simp only [serStr, List.cons_append, List.append_assoc, List.singleton_append]
    rw [readArrItems.eq_def]
    simp [readStrBody_esc]
  | cons y t ih =>
    intro f r hf
    obtain ⟨f', rfl⟩ : ∃ f', f = f' + 1 := ⟨f - 1, by simp at hf; omega⟩
    rw [show joinSep [','] ((x :: y :: t).map serStr) =
        serStr x ++ ',' :: joinSep [','] ((y :: t).map serStr) from by
      simp [joinSep]]
    simp only [serStr, List.cons_append, List.append_assoc, List.singleton_append]
    rw [readArrItems.eq_def]
    simp only [readStrBody_esc, List.nil_append]
    have hrec := ih y f' r (by simp at hf ⊢; omega)
    simp
    simpa using hrec

theorem readArr_ser (xs : List String) (f : Nat) (r : List Char)
    (hf : xs.length ≤ f) :
    readArr f (joinSep [','] (xs.map serStr) ++ ']' :: r) = some (xs, r) := by
  cases xs with
  | nil => simp [joinSep, readArr]
  | cons x t =>
    have hitems := readArrItems_ser x t f r hf
    rw [readArr.eq_def]
    cases t with
    | nil =>
      rw [show joinSep [','] (([x] : List String).map serStr) = serStr x from
        rfl] at hitems ⊢
      simp only [serStr, List.cons_append, List.append_assoc,
        List.singleton_append] at hitems ⊢
      simpa using hitems
    | cons y t2 =>
      rw [show joinSep [','] ((x :: y :: t2).map serStr) =
          serStr x ++ ',' :: joinSep [','] ((y :: t2).map serStr) from by
        simp [joinSep]] at hitems ⊢
      simp only [serStr, List.cons_append, List.append_assoc,
        List.singleton_append] at hitems ⊢
      simpa using hitems

theorem readVal_serVal (v : JVal) (r : List Char) :
    readVal (serVal v ++ r) = some (v, r) := by
  cases v with
  | jstr s => exact readVal_serStr s r
  | jarr xs =>
    rw [show serVal (.jarr xs) = serStrList xs from rfl]
    unfold serStrList
    simp only [List.cons_append, List.append_assoc, List.singleton_append]
    rw [readVal.eq_def]
    have h := readArr_ser xs (joinSep [','] (xs.map serStr) ++ ']' :: r).length r
      (by
        have := serStrList_interior_length xs
        simp only [List.length_append, List.length_cons]
        omega)
    simp only [List.length_append, List.length_cons] at h
    simp [h]

theorem serFields_length_ge (fields : JObj) :
    fields.length ≤ (serFields fields).length := by
  induction fields with
  | nil => simp [serFields, joinSep]
  | cons kv rest ih =>
    cases rest with
    | nil =>
      simp only [serFields, List.map_cons, List.map_nil, joinSep,
        List.length_append, List.length_cons, List.length_nil, serStr]
      omega
    | cons kv2 t =>
      simp only [serFields, List.map_cons, joinSep, List.length_append,
        List.length_cons] at ih ⊢
      have hx : 1 ≤ (serStr kv.1).length := by simp [serStr]
      omega

theorem readObjFields_ser (fields : JObj) (hne : fields ≠ []) :
    ∀ (f : Nat) (r : List Char), fields.length ≤ f →
    readObjFields f (serFields fields ++ '\x7d' :: r) = some (fields, r) := by
  induction fields with
  | nil => cases hne rfl
  | cons kv rest ih =>
    intro f r hf
    obtain ⟨f', rfl⟩ : ∃ f', f = f' + 1 := ⟨f - 1, by simp at hf; omega⟩
    cases rest with
    | nil =>
      rw [show serFields [kv] = serStr kv.1 ++ ':' :: serVal kv.2 from by
        simp [serFields, joinSep]]
      simp only [serStr, List.cons_append, List.append_assoc,
        List.singleton_append]
      rw [readObjFields.eq_def]
      have hv := readVal_serVal kv.2 ('\x7d' :: r)
      simp [readStrBody_esc, hv]
    | cons kv2 rest2 =>
      rw [show serFields (kv :: kv2 :: rest2) =
          (serStr kv.1 ++ ':' :: serVal kv.2) ++ ',' ::
            serFields (kv2 :: rest2) from by
        simp [serFields, joinSep]]
      simp only [serStr, List.cons_append, List.append_assoc,
        List.singleton_append]
      rw [readObjFields.eq_def]
      have hv := readVal_serVal kv.2 (',' :: (serFields (kv2 :: rest2) ++
        '\x7d' :: r))
      have hrec := ih (by simp) f' r (by simp at hf ⊢; omega)
      simp [readStrBody_esc, hv, hrec]

theorem jsonParse_serObj (fields : JObj) :
    jsonParse (serObj fields) = some fields := by
  cases fields with
  | nil => rfl
  | cons kv rest =>
    obtain ⟨T, hT⟩ : ∃ T, serFields (kv :: rest) = '"' :: T := by
      cases rest with
      | nil =>
        refine ⟨escChars kv.1.data ++ '"' :: ':' :: serVal kv.2, ?_⟩
        simp [serFields, joinSep, serStr]
      | cons kv2 t =>
        refine ⟨escChars kv.1.data ++ '"' :: ':' ::
          (serVal kv.2 ++ ',' :: serFields (kv2 :: t)), ?_⟩
        simp [serFields, joinSep, serStr]
    have hOF := readObjFields_ser (kv :: rest) (by simp)
      ((serFields (kv :: rest) ++ '\x7d' :: ([] : List Char)).length) []
      (by
        have h := serFields_length_ge (kv :: rest)
        simp only [List.length_append, List.length_cons, List.length_nil] at h ⊢
        omega)
    rw [show serObj (kv :: rest) =
        '\x7b' :: (serFields (kv :: rest) ++ '\x7d' :: []) from by
      simp [serObj]]
    rw [jsonParse.eq_def]
    rw [hT] at hOF ⊢
    simp only [List.cons_append] at hOF ⊢
    simp only [List.length_cons, List.length_append, List.length_nil] at hOF
    simp [hOF]


/-! ## Metadata marker matching -/

theorem lazyCapture_clean (inner : List Char) (hclean : '\x7d' ∉ inner)
    (r : List Char) :
    lazyCapture (inner ++ '\x7d' :: ' ' :: '-' :: '-' :: '>' :: r) = some inner := by
  induction inner with
  | nil =>
    rw [List.nil_append, lazyCapture.eq_def]
    have hm : (" -->".data).isPrefixOf (' ' :: '-' :: '-' :: '>' :: r) = true := by
      rw [show (" -->".data) = [' ', '-', '-', '>'] from rfl]
      simp [List.isPrefixOf_iff_prefix]
    simp [hm]
  | cons c cs ih =>
    rw [List.cons_append, lazyCapture.eq_def]
    have hc : (c = '\x7d') = False := by
      simp only [eq_iff_iff, iff_false]
      intro h
      exact hclean (by simp [h])
    simp only [hc, decide_False, Bool.false_and, if_false]
    rw [ih (fun h => hclean (by simp [h]))]
    rfl

theorem matchPayload_skip (mrest pre rest : List Char) (hpre : '<' ∉ pre) :
    matchPayload ('<' :: mrest) (pre ++ rest) =
      matchPayload ('<' :: mrest) rest := by
  induction pre with
  | nil => rfl
  | cons c cs ih =>
    rw [List.cons_append, matchPayload.eq_def]
    have hc : ¬ ('<' = c) := by
      intro h
      exact hpre (by simp [← h])
    have hpf : (('<' :: mrest).isPrefixOf (c :: (cs ++ rest))) = false := by
      simp [List.isPrefixOf, hc]
    simp only [hpf, if_false]
    exact ih (fun h => hpre (by simp [h]))

theorem matchPayload_marker (mrest inner r : List Char)
    (hclean : '\x7d' ∉ inner) :
    matchPayload ('<' :: mrest)
        (('<' :: mrest) ++
          ('\x7b' :: (inner ++ '\x7d' :: ' ' :: '-' :: '-' :: '>' :: r))) =
      some ('\x7b' :: inner ++ ['\x7d']) := by
  rw [List.cons_append, matchPayload.eq_def]
  have hpf : (('<' :: mrest).isPrefixOf
      ('<' :: (mrest ++ ('\x7b' :: (inner ++ '\x7d' :: ' ' :: '-' :: '-' :: '>' :: r))))) = true := by
    simp [List.isPrefixOf_iff_prefix]
  simp only [hpf, if_true]
  have hdrop : ('<' :: (mrest ++
      ('\x7b' :: (inner ++ '\x7d' :: ' ' :: '-' :: '-' :: '>' :: r)))).drop
        ('<' :: mrest).length =
      '\x7b' :: (inner ++ '\x7d' :: ' ' :: '-' :: '-' :: '>' :: r) := by
    simp only [List.length_cons, List.drop_succ_cons]
    exact List.drop_left mrest _
  rw [hdrop]
  simp [lazyCapture_clean inner hclean r]


/-! ## Cleanliness: the serialized payload has no stray closing brace -/

theorem special_not_mem_jsonEscapeChar (x c : Char) (hxc : ¬ x = c)
    (hlist : ∀ y ∈ (['\\', 'u', '0', 'n', 'r', 't', 'b', 'f', '"', '/'] : List Char),
      ¬ x = y)
    (hhex : ∀ n : Nat, n < 16 → ¬ x = hexDigitChar n) :
    x ∉ jsonEscapeChar c := by
  unfold jsonEscapeChar
  split_ifs with h1 h2 h3 h4 h5 h6 h7 h8 <;> intro hmem <;>
    simp only [List.mem_cons, List.not_mem_nil, or_false] at hmem
  · rcases hmem with h | h
    · exact hlist '\\' (by decide) h
    · exact hlist '"' (by decide) h
  · rcases hmem with h | h
    · exact hlist '\\' (by decide) h
    · exact hlist '\\' (by decide) h
  · rcases hmem with h | h
    · exact hlist '\\' (by decide) h
    · exact hlist 'n' (by decide) h
  · rcases hmem with h | h
    · exact hlist '\\' (by decide) h
    · exact hlist 'r' (by decide) h
  · rcases hmem with h | h
    · exact hlist '\\' (by decide) h
    · exact hlist 't' (by decide) h
  · rcases hmem with h | h
    · exact hlist '\\' (by decide) h
    · exact hlist 'b' (by decide) h
  · rcases hmem with h | h
    · exact hlist '\\' (by decide) h
    · exact hlist 'f' (by decide) h
  · rcases hmem with h | h | h | h | h | h
    · exact hlist '\\' (by decide) h
    · exact hlist 'u' (by decide) h
    · exact hlist '0' (by decide) h
    · exact hlist '0' (by decide) h
    · exact hhex (c.toNat / 16) (by omega) h
    · exact hhex (c.toNat % 16) (by omega) h
  · exact hxc hmem

theorem special_not_mem_escChars (x : Char)
    (hlist : ∀ y ∈ (['\\', 'u', '0', 'n', 'r', 't', 'b', 'f', '"', '/'] : List Char),
      ¬ x = y)
    (hhex : ∀ n : Nat, n < 16 → ¬ x = hexDigitChar n)
    (s : List Char) (hs : x ∉ s) : x ∉ escChars s := by
  intro hmem
  simp only [escChars, List.mem_flatMap] at hmem
  obtain ⟨a, ha, hxa⟩ := hmem
  exact special_not_mem_jsonEscapeChar x a (fun h => hs (h ▸ ha)) hlist hhex hxa

theorem brace_not_mem_escChars (s : List Char) (hs : '\x7d' ∉ s) :
    '\x7d' ∉ escChars s :=
  special_not_mem_escChars '\x7d' (by decide) (by decide) s hs

theorem brace_not_mem_serStr (s : String) (hs : '\x7d' ∉ s.data) :
    '\x7d' ∉ serStr s := by
  intro hmem
  simp only [serStr, List.mem_cons, List.mem_append, List.mem_singleton] at hmem
  rcases hmem with (h | h) | h
  · exact absurd h (by decide)
  · exact brace_not_mem_escChars s.data hs h
  · exact absurd h (by decide)

theorem not_mem_joinSep (x : Char) (sep : List Char) (parts : List (List Char))
    (hsep : x ∉ sep) (hparts : ∀ p ∈ parts, x ∉ p) : x ∉ joinSep sep parts := by
  induction parts with
  | nil => simp [joinSep]
  | cons p rest ih =>
    cases rest with
    | nil =>
      rw [show joinSep sep [p] = p from rfl]
      exact hparts p (by simp)
    | cons q t =>
      rw [show joinSep sep (p :: q :: t) = p ++ sep ++ joinSep sep (q :: t) from
        rfl]
      simp only [List.mem_append, not_or]
      exact ⟨⟨hparts p (by simp), hsep⟩,
        ih (fun pp hpp => hparts pp (by simp [hpp]))⟩

theorem brace_not_mem_serStrList (xs : List String)
    (h : ∀ x ∈ xs, '\x7d' ∉ x.data) : '\x7d' ∉ serStrList xs := by
  intro hmem
  simp only [serStrList, List.mem_cons, List.mem_append, List.mem_singleton]
    at hmem
  have hj : '\x7d' ∉ joinSep [','] (xs.map serStr) := by
    refine not_mem_joinSep _ _ _ (by decide) ?_
    intro p hp
    simp only [List.mem_map] at hp
    obtain ⟨y, hy, rfl⟩ := hp
    exact brace_not_mem_serStr y (h y hy)
  rcases hmem with (h1 | h1) | h1
  · exact absurd h1 (by decide)
  · exact hj h1
  · exact absurd h1 (by decide)

theorem brace_not_mem_serVal (v : JVal)
    (hstr : ∀ s, v = JVal.jstr s → '\x7d' ∉ s.data)
    (harr : ∀ xs, v = JVal.jarr xs → ∀ x ∈ xs, '\x7d' ∉ x.data) :
    '\x7d' ∉ serVal v := by
  cases v with
  | jstr s => exact brace_not_mem_serStr s (hstr s rfl)
  | jarr xs => exact brace_not_mem_serStrList xs (harr xs rfl)

theorem brace_not_mem_serFields (fields : JObj)
    (h : ∀ kv ∈ fields, '\x7d' ∉ kv.1.data ∧
      (∀ s, kv.2 = JVal.jstr s → '\x7d' ∉ s.data) ∧
      (∀ xs, kv.2 = JVal.jarr xs → ∀ x ∈ xs, '\x7d' ∉ x.data)) :
    '\x7d' ∉ serFields fields := by
  unfold serFields
  refine not_mem_joinSep _ _ _ (by decide) ?_
  intro p hp
  simp only [List.mem_map] at hp
  obtain ⟨kv, hkv, rfl⟩ := hp
  obtain ⟨hk, hs, ha⟩ := h kv hkv
  intro hmem
  simp only [List.mem_append, List.mem_cons] at hmem
  rcases hmem with h1 | h1 | h1
  · exact brace_not_mem_serStr kv.1 hk h1
  · exact absurd h1 (by decide)
  · exact brace_not_mem_serVal kv.2 hs ha h1


/-! ## `parseMetadata` recovers a formatted plan payload -/

theorem formatMetadata_plan_shape (fields : JObj) (human : List Char) :
    formatMetadata "plan" (serObj fields) human =
      (human ++ ("\n\n" : String).data) ++
        (('<' :: ("!-- lota:v1:plan " : String).data) ++
          ('\x7b' :: (serFields fields ++
            '\x7d' :: ' ' :: '-' :: '-' :: '>' :: []))) := by
  unfold formatMetadata serObj META_VERSION
  rw [show ("\n\n<!-- lota:" : String).data =
    ['\n', '\n', '<', '!', '-', '-', ' ', 'l', 'o', 't', 'a', ':'] from rfl]
  rw [show (("v1" : String) : String).data = ['v', '1'] from rfl]
  rw [show ((":" : String) : String).data = [':'] from rfl]
  rw [show (("plan" : String) : String).data = ['p', 'l', 'a', 'n'] from rfl]
  rw [show ((" " : String) : String).data = [' '] from rfl]
  rw [show ((" -->" : String) : String).data = [' ', '-', '-', '>'] from rfl]
  rw [show (("\n\n" : String) : String).data = ['\n', '\n'] from rfl]
  rw [show (("!-- lota:v1:plan " : String) : String).data =
    ['!', '-', '-', ' ', 'l', 'o', 't', 'a', ':', 'v', '1', ':', 'p', 'l',
     'a', 'n', ' '] from rfl]
  simp only [List.cons_append, List.append_assoc, List.nil_append,
    List.singleton_append, List.append_nil]

theorem parseMetadata_plan_format (human : List Char) (fields : JObj)
    (hhuman : '<' ∉ human) (hclean : '\x7d' ∉ serFields fields) :
    parseMetadata (String.mk (formatMetadata "plan" (serObj fields) human))
        "plan" = some fields := by
  unfold parseMetadata
  have hmarker : (("<!-- lota:" ++ META_VERSION ++ ":" ++ "plan" ++ " ") :
      String).data = '<' :: ("!-- lota:v1:plan " : String).data := by decide
  have hbody : (String.mk (formatMetadata "plan" (serObj fields) human)).data =
      (human ++ ("\n\n" : String).data) ++
        (('<' :: ("!-- lota:v1:plan " : String).data) ++
          ('\x7b' :: (serFields fields ++
            '\x7d' :: ' ' :: '-' :: '-' :: '>' :: []))) :=
    formatMetadata_plan_shape fields human
  rw [hmarker, hbody]
  have hpre : '<' ∉ human ++ ("\n\n" : String).data := by
    intro hmem
    rcases List.mem_append.mp hmem with h | h
    · exact hhuman h
    · exact absurd h (by decide)
  rw [matchPayload_skip _ _ _ hpre]
  rw [matchPayload_marker _ _ _ hclean]
  have hjson : jsonParse ('\x7b' :: (serFields fields ++ ['\x7d'])) =
      some fields := by
    have h := jsonParse_serObj fields
    unfold serObj at h
    simpa using h
  simp
  rw [hjson]


theorem findSome?_singleton {α β : Type} (f : α → Option β) (c : α) :
    List.findSome? f [c] = f c := by
  cases h : f c <;> simp [List.findSome?_cons, h]

/-! ## The human-readable plan text contains no marker start -/

theorem lt_not_mem_planHuman (goals : List String) (effort notes : Option String)
    (hg : ∀ g ∈ goals, '<' ∉ g.data)
    (he : ∀ e, effort = some e → '<' ∉ e.data)
    (hn : ∀ nn, notes = some nn → '<' ∉ nn.data) :
    '<' ∉ planHuman goals effort notes := by
  unfold planHuman
  intro hmem
  rcases List.mem_append.mp hmem with hmem1 | hmem1
  · rcases List.mem_append.mp hmem1 with hmem2 | hmem2
    · rcases List.mem_append.mp hmem2 with hmem3 | hmem3
      · exact absurd hmem3 (by decide)
      · refine not_mem_joinSep '<' ("\n".data)
          (goals.map (fun g => ("- " : String).data ++ g.data))
          (by decide) ?_ hmem3
        intro p hp
        simp only [List.mem_map] at hp
        obtain ⟨g, hgg, rfl⟩ := hp
        intro hmm
        rcases List.mem_append.mp hmm with h | h
        · exact absurd h (by decide)
        · exact hg g hgg h
    · split_ifs at hmem2 with hth
      · simp at hmem2
      · rcases List.mem_append.mp hmem2 with h | h
        · exact absurd h (by decide)
        · cases effort with
          | none => simp [jsFalsy] at hth
          | some e => exact he e rfl h
  · split_ifs at hmem1 with hth
    · simp at hmem1
    · rcases List.mem_append.mp hmem1 with h | h
      · exact absurd h (by decide)
      · cases notes with
        | none => simp [jsFalsy] at hth
        | some nn => exact hn nn rfl h

/-! ## C5: savePlan / get round-trip -/

/-- C5 (counterexample): saving a plan whose notes field contains the
metadata terminator sequence `\x7d -->` makes the non-greedy payload capture
stop inside the JSON string, the capture fails to parse, the legacy marker
does not match either, and a subsequent `get` of the task returns no plan
at all — not a plan with the same fields. -/
theorem claim_C5_counterexample :
    (savePlan cexStore5 1 ["g"] (some []) (some "medium")
      (some "\x7d -->")).isSome ∧
    (savePlan cexStore5 1 ["g"] (some []) (some "medium")
        (some "\x7d -->")).bind (fun st1 => getTaskPlan st1 1) = none := by
  exact ⟨by decide, by decide⟩

/-- C5 (as amended): a plan saved via `savePlan` and read back via `get`
reproduces the same goals, affected files, effort, and notes, provided the
task had no earlier comment carrying a plan payload, the effort is a given
nonempty string, and no field value contains a closing brace or the
character `<` (either of which can corrupt the regular-expression capture
of the embedded payload). -/
theorem claim_C5_roundtrip (st : Store) (n : Nat) (issue : Issue)
    (goals files : List String) (effort : String) (notes : Option String)
    (hIss : getIssue st n = some issue)
    (hPrior : ∀ c ∈ issue.comments, parseMetadata c "plan" = none)
    (hGoals : ∀ g ∈ goals, cleanText g)
    (hFiles : ∀ x ∈ files, cleanText x)
    (hEffort : cleanText effort ∧ ¬ effort = "")
    (hNotes : ∀ nn, notes = some nn → cleanText nn) :
    (savePlan st n goals (some files) (some effort) notes).bind
        (fun st1 => getTaskPlan st1 n) =
      some (planData goals files effort notes) := by
  unfold savePlan
  rw [hIss]
  simp only [Option.map_some', Option.some_bind]
  unfold getTaskPlan
  rw [getIssue_postComment, hIss]
  simp only [Option.map_some', Option.some_bind]
  rw [List.findSome?_append]
  have hA : issue.comments.findSome? (fun c => parseMetadata c "plan") =
      none := List.findSome?_eq_none_iff.mpr hPrior
  rw [hA, Option.none_or]
  have hjs : jsFalsy (some effort) = false := by
    simp only [jsFalsy]
    rw [show effort.isEmpty = false from by
      cases h : effort.isEmpty
      · rfl
      · exact absurd ((String.isEmpty_iff effort).mp h) hEffort.2]
  have hcomment : planComment goals (some files) (some effort) notes =
      formatMetadata "plan" (serObj (planData goals files effort notes))
        (planHuman goals (some effort) notes) := by
    unfold planComment serPlanData
    rw [hjs]
    rfl
  have hclean : '\x7d' ∉ serFields (planData goals files effort notes) := by
    refine brace_not_mem_serFields _ ?_
    intro kv hkv
    unfold planData at hkv
    rcases List.mem_append.mp hkv with hk | hk
    · simp only [List.mem_cons, List.not_mem_nil, or_false] at hk
      rcases hk with rfl | rfl | rfl
      · refine ⟨show '\x7d' ∉ ("goals" : String).data by decide, by simp, ?_⟩
        intro xs hxs x hx
        simp only [JVal.jarr.injEq] at hxs
        exact (hGoals x (hxs ▸ hx)).1
      · refine ⟨show '\x7d' ∉ ("affected_files" : String).data by decide,
          by simp, ?_⟩
        intro xs hxs x hx
        simp only [JVal.jarr.injEq] at hxs
        exact (hFiles x (hxs ▸ hx)).1
      · refine ⟨show '\x7d' ∉ ("effort" : String).data by decide, ?_, by simp⟩
        intro s hss
        simp only [JVal.jstr.injEq] at hss
        exact hss ▸ hEffort.1.1
    · cases notes with
      | none => simp at hk
      | some nn =>
        simp only [List.mem_cons, List.not_mem_nil, or_false] at hk
        subst hk
        refine ⟨show '\x7d' ∉ ("notes" : String).data by decide, ?_, by simp⟩
        intro s hss
        simp only [JVal.jstr.injEq] at hss
        exact hss ▸ (hNotes nn rfl).1
  have hhuman : '<' ∉ planHuman goals (some effort) notes :=
    lt_not_mem_planHuman goals (some effort) notes
      (fun g hgg => (hGoals g hgg).2)
      (fun e hee => by cases hee; exact hEffort.1.2)
      (fun nn hnn => (hNotes nn hnn).2)
  rw [findSome?_singleton]
  rw [hcomment]
  exact parseMetadata_plan_format _ _ hhuman hclean


theorem claim_C5_roundtrip_witness :
    (savePlan cexStore5 1 ["add login page"] (some ["src/auth.ts"])
        (some "high") (some "note text")).bind (fun st1 => getTaskPlan st1 1) =
      some (planData ["add login page"] ["src/auth.ts"] "high"
        (some "note text")) :=
  claim_C5_roundtrip cexStore5 1
    ⟨1, "fresh task", ["task", "agent:lota", "status:assigned"], "", [], "open"⟩
    ["add login page"] ["src/auth.ts"] "high" (some "note text")
    rfl (by simp) (by decide) (by decide) ⟨by decide, by decide⟩
    (by intro nn h; injection h with h2; subst h2; decide)


end Lota
